import Mathlib

/-!
# Verification of the simtools blackjack simulator core

Shallow embedding of `src/main.py` (ranks, hand valuation, policies, the
round engine `BlackjackGame.play_round`, and `simulate`) together with
proofs of the specification's testable properties.

Conventions of the embedding:
* Python `float` values (bets, payouts, profits, rates) are modelled as `ℚ`;
  every arithmetic operation the claims mention is an exact expression
  (`-1.0 * bet`, `payout * bet`, `wins / games`), so the rational model is
  faithful to the identities at issue.
* The seeded pseudo-random card stream of `InfiniteDeck` is modelled as a
  function `ℕ → Rank` giving the rank of the n-th draw, with an explicit
  cursor threaded through the round engine (the generator stream is shared
  across rounds, as in the source).
* Python exceptions (`ValueError` for invalid policy actions, and
  `ZeroDivisionError` in `simulate` when `games == 0`) are modelled with
  `Except String`.
-/

/-- The thirteen symbolic card ranks, `RANKS` in the source
(no suits, infinite supply). -/
inductive Rank where
  | A | two | three | four | five | six | seven | eight | nine | ten
  | J | Q | K
deriving DecidableEq, Repr

/-- `card_value`: base value of a rank — `J`/`Q`/`K` are 10, `A` is 1
(the Ace upgrade is handled separately), numeric ranks are face value. -/
def card_value : Rank → ℕ
  | .J => 10
  | .Q => 10
  | .K => 10
  | .A => 1
  | .two => 2
  | .three => 3
  | .four => 4
  | .five => 5
  | .six => 6
  | .seven => 7
  | .eight => 8
  | .nine => 9
  | .ten => 10

/-- A hand is the ordered, append-only list of its card ranks
(`Hand.cards` in the source). -/
abbrev Hand := List Rank

/-- `Hand.value_and_usable_ace`: fold over the cards accumulating the base
total and the number of Aces, then upgrade exactly one Ace from 1 to 11
(i.e. add 10) when an Ace is present and the result stays ≤ 21. -/
def value_and_usable_ace (cards : Hand) : ℕ × Bool :=
  let ta := cards.foldl
    (fun (p : ℕ × ℕ) c =>
      (p.1 + card_value c, if c = Rank.A then p.2 + 1 else p.2)) (0, 0)
  if 0 < ta.2 ∧ ta.1 + 10 ≤ 21 then (ta.1 + 10, true) else (ta.1, false)

/-- `Hand.total`: first component of `value_and_usable_ace`. -/
def total (cards : Hand) : ℕ := (value_and_usable_ace cards).1

/-- `Hand.usable_ace`: second component of `value_and_usable_ace`. -/
def usable_ace (cards : Hand) : Bool := (value_and_usable_ace cards).2

/-- `Hand.is_blackjack`: exactly 2 cards and total 21. -/
def is_blackjack (cards : Hand) : Bool :=
  cards.length == 2 && total cards == 21

/-- `Hand.is_bust`: total strictly above 21. -/
def is_bust (cards : Hand) : Bool := 21 < total cards

/-- Base sum of a hand: the sum of the cards' base values
(every Ace counted as 1). -/
def baseSum (cards : Hand) : ℕ := (cards.map card_value).sum

/-- Number of Aces in a hand. -/
def aceCount (cards : Hand) : ℕ := cards.count Rank.A

theorem foldl_value_aces (cards : Hand) (t a : ℕ) :
    cards.foldl
      (fun (p : ℕ × ℕ) c =>
        (p.1 + card_value c, if c = Rank.A then p.2 + 1 else p.2)) (t, a)
      = (t + baseSum cards, a + aceCount cards) := by
  induction cards generalizing t a with
  | nil => simp [baseSum, aceCount]
  | cons c cs ih =>
      simp only [List.foldl_cons, ih, Prod.mk.injEq]
      refine ⟨by simp [baseSum, Nat.add_assoc], ?_⟩
      by_cases hc : c = Rank.A
      · simp [aceCount, hc, List.count_cons]
        omega
      · simp [aceCount, hc, List.count_cons]

theorem value_and_usable_ace_eq (cards : Hand) :
    value_and_usable_ace cards =
      if 0 < aceCount cards ∧ baseSum cards + 10 ≤ 21
      then (baseSum cards + 10, true) else (baseSum cards, false) := by
  have h := foldl_value_aces cards 0 0
  simp only [value_and_usable_ace, h, Nat.zero_add]

theorem card_value_pos (c : Rank) : 1 ≤ card_value c := by
  cases c <;> simp [card_value]

theorem baseSum_append_one (cards : Hand) (c : Rank) :
    baseSum (cards ++ [c]) = baseSum cards + card_value c := by
  simp [baseSum]

theorem total_eq_or (cards : Hand) :
    total cards = baseSum cards ∨ total cards = baseSum cards + 10 := by
  rw [total, value_and_usable_ace_eq]
  split <;> simp

theorem baseSum_le_total (cards : Hand) : baseSum cards ≤ total cards := by
  rcases total_eq_or cards with h | h <;> omega

theorem total_le_baseSum_add_ten (cards : Hand) :
    total cards ≤ baseSum cards + 10 := by
  rcases total_eq_or cards with h | h <;> omega

/-- `Rules`: immutable house configuration (`dealer_hits_soft_17`,
`blackjack_payout`, `bet`); floats modelled as `ℚ`. -/
structure Rules where
  dealer_hits_soft_17 : Bool
  blackjack_payout : ℚ
  bet : ℚ
deriving DecidableEq, Repr

/-- `GameResult`: immutable output of one round. -/
structure GameResult where
  outcome : String
  profit : ℚ
  player_total : ℕ
  dealer_total : ℕ
  player_blackjack : Bool
  dealer_blackjack : Bool
  player_bust : Bool
  dealer_bust : Bool
deriving DecidableEq, Repr

/-- A policy maps (player hand, dealer upcard) to an action string;
returning anything other than `"hit"`/`"stand"` is possible and is the
round engine's error case, as in the source. -/
abbrev Policy := Hand → Rank → String

/-- `BlackjackGame._dealer_should_hit`: hit below 17, stand above 17, and
at exactly 17 hit iff the hand is soft and `dealer_hits_soft_17` is set. -/
def dealer_should_hit (rules : Rules) (dealer_hand : Hand) : Bool :=
  let tu := value_and_usable_ace dealer_hand
  if tu.1 < 17 then true
  else if 17 < tu.1 then false
  else if tu.2 && rules.dealer_hits_soft_17 then true
  else false

/-- Outcome of the player-turn loop: the hand either busted after a hit or
the policy stood on it. -/
inductive PlayerEnd where
  | busted (hand : Hand)
  | stood (hand : Hand)
deriving DecidableEq, Repr

theorem not_bust_baseSum_le (cards : Hand) (h : is_bust cards = false) :
    baseSum cards ≤ 21 := by
  have h1 := baseSum_le_total cards
  simp only [is_bust, decide_eq_false_iff_not, not_lt] at h
  omega

/-- The player-turn loop of `play_round`: while the hand is not bust, query
the policy; an invalid action raises (`Except.error`); `"stand"` exits the
loop; `"hit"` appends the next card of the stream and re-loops. The second
result component is the stream cursor after the player's draws. -/
def playerTurn (policy : Policy) (upcard : Rank) (deck : ℕ → Rank)
    (hand : Hand) (i : ℕ) : Except String (PlayerEnd × ℕ) :=
  if hb : is_bust hand then .ok (.busted hand, i)
  else
    let action := policy hand upcard
    if action ≠ "hit" ∧ action ≠ "stand" then .error action
    else if action = "stand" then .ok (.stood hand, i)
    else playerTurn policy upcard deck (hand ++ [deck i]) (i + 1)
termination_by 22 - baseSum hand
decreasing_by
  have h1 : baseSum hand ≤ 21 := not_bust_baseSum_le hand (by simpa using hb)
  have h2 := card_value_pos (deck i)
  rw [baseSum_append_one]
  omega

/-- The dealer-turn loop of `play_round`: draw while `dealer_should_hit`
holds. Returns the final dealer hand and the stream cursor. -/
def dealerTurn (rules : Rules) (deck : ℕ → Rank)
    (hand : Hand) (i : ℕ) : Hand × ℕ :=
  if hh : dealer_should_hit rules hand then
    dealerTurn rules deck (hand ++ [deck i]) (i + 1)
  else (hand, i)
termination_by 18 - baseSum hand
decreasing_by
  have h1 : total hand ≤ 17 := by
    simp only [dealer_should_hit] at hh
    split at hh
    · next h => exact Nat.le_of_lt_succ (Nat.lt_succ_of_lt (by simpa [total] using h))
    · split at hh
      · next h' => simp at hh
      · next h h' => simp only [total]; omega
  have h2 := baseSum_le_total hand
  have h3 := card_value_pos (deck i)
  rw [baseSum_append_one]
  omega

/-- `BlackjackGame.play_round`: deal two cards to the player then two to the
dealer from the stream, short-circuit on natural blackjacks, otherwise run
the player turn (which may raise on an invalid action), then the dealer
turn, then settle.  Returns the `GameResult` and the advanced cursor. -/
def play_round (rules : Rules) (policy : Policy) (deck : ℕ → Rank)
    (i : ℕ) : Except String (GameResult × ℕ) :=
  let player : Hand := [deck i, deck (i + 1)]
  let dealer : Hand := [deck (i + 2), deck (i + 3)]
  let dealer_upcard := deck (i + 2)
  let player_bj := is_blackjack player
  let dealer_bj := is_blackjack dealer
  if player_bj || dealer_bj then
    if player_bj && dealer_bj then
      .ok (⟨"push", 0, total player, total dealer, true, true, false, false⟩,
        i + 4)
    else if player_bj && !dealer_bj then
      .ok (⟨"win", rules.blackjack_payout * rules.bet, total player,
        total dealer, true, false, false, false⟩, i + 4)
    else
      .ok (⟨"loss", -1 * rules.bet, total player, total dealer, false, true,
        false, false⟩, i + 4)
  else
    match playerTurn policy dealer_upcard deck player (i + 4) with
    | .error e => .error e
    | .ok (.busted player', j) =>
        .ok (⟨"loss", -1 * rules.bet, total player', total dealer,
          false, false, true, false⟩, j)
    | .ok (.stood player', j) =>
        let dk := dealerTurn rules deck dealer j
        let player_bust := is_bust player'
        let dealer_bust := is_bust dk.1
        if player_bust then
          .ok (⟨"loss", -1 * rules.bet, total player', total dk.1,
            false, false, true, dealer_bust⟩, dk.2)
        else if dealer_bust then
          .ok (⟨"win", 1 * rules.bet, total player', total dk.1,
            false, false, false, true⟩, dk.2)
        else if total dk.1 < total player' then
          .ok (⟨"win", 1 * rules.bet, total player', total dk.1,
            false, false, false, false⟩, dk.2)
        else if total player' < total dk.1 then
          .ok (⟨"loss", -1 * rules.bet, total player', total dk.1,
            false, false, false, false⟩, dk.2)
        else
          .ok (⟨"push", 0, total player', total dk.1,
            false, false, false, false⟩, dk.2)

/-- `Summary`: immutable aggregate over `games` rounds
(counts, total/average profit, rates). -/
structure Summary where
  games : ℤ
  wins : ℕ
  losses : ℕ
  pushes : ℕ
  profit_total : ℚ
  profit_avg : ℚ
  win_rate : ℚ
  loss_rate : ℚ
  push_rate : ℚ
deriving DecidableEq, Repr

/-- The accumulation loop of `simulate`: play `n` rounds sequentially on the
shared stream, adding each round's profit and incrementing exactly one of
the three counters (`win` / `loss` / anything else counts as a push, as in
the source's `else` branch).  A round error aborts the whole loop. -/
def runRounds (rules : Rules) (policy : Policy) (deck : ℕ → Rank) :
    ℕ → ℕ → ℕ × ℕ × ℕ × ℚ → Except String ((ℕ × ℕ × ℕ × ℚ) × ℕ)
  | 0, i, acc => .ok (acc, i)
  | n + 1, i, (w, l, p, pt) =>
      match play_round rules policy deck i with
      | .error e => .error e
      | .ok (res, j) =>
          let pt' := pt + res.profit
          if res.outcome = "win" then
            runRounds rules policy deck n j (w + 1, l, p, pt')
          else if res.outcome = "loss" then
            runRounds rules policy deck n j (w, l + 1, p, pt')
          else
            runRounds rules policy deck n j (w, l, p + 1, pt')

/-- `simulate`: run `n_games` rounds (Python's `range` runs
`max n_games 0` iterations) against one shared card stream, then build the
`Summary`; the division `profit_total / games` raises `ZeroDivisionError`
when `games = 0`, modelled as an `Except.error` after the (empty) loop.
No configuration validation is performed, as in the source. -/
def simulate (policy : Policy) (n_games : ℤ) (deck : ℕ → Rank)
    (rules : Rules) : Except String Summary :=
  match runRounds rules policy deck n_games.toNat 0 (0, 0, 0, 0) with
  | .error e => .error e
  | .ok ((w, l, p, pt), _) =>
      if n_games = 0 then .error "ZeroDivisionError"
      else
        .ok ⟨n_games, w, l, p, pt, pt / (n_games : ℚ), (w : ℚ) / (n_games : ℚ),
          (l : ℚ) / (n_games : ℚ), (p : ℚ) / (n_games : ℚ)⟩

/-- The seeded card source: `random.Random(seed)` drives `InfiniteDeck`, so
the whole draw stream is a function of the seed.  `gen` abstracts the
underlying deterministic generator algorithm (spec §4.2's determinism
contract); `simulateSeeded` is `simulate(policy, n_games, seed, rules)`. -/
def simulateSeeded (gen : ℤ → ℕ → Rank) (policy : Policy) (n_games : ℤ)
    (seed : ℤ) (rules : Rules) : Except String Summary :=
  simulate policy n_games (gen seed) rules

/-- `ThresholdPolicy`: hit while the total is below the threshold. -/
def thresholdPolicy (threshold : ℕ) : Policy :=
  fun player_hand _ => if total player_hand < threshold then "hit" else "stand"

/-- `BasicStrategyPolicy.decide` (no splits, no double down), translated
clause by clause from the source. -/
def basicStrategyDecide : Policy := fun player_hand dealer_upcard =>
  let player_total := total player_hand
  let dealer_val :=
    if dealer_upcard = Rank.A then 11 else card_value dealer_upcard
  if 21 ≤ player_total then "stand"
  else if usable_ace player_hand then
    if 19 ≤ player_total then "stand"
    else if player_total = 18 then
      if dealer_val = 9 ∨ dealer_val = 10 ∨ dealer_val = 11 then "hit"
      else "stand"
    else "hit"
  else
    if 17 ≤ player_total then "stand"
    else if 13 ≤ player_total ∧ player_total ≤ 16 then
      if 2 ≤ dealer_val ∧ dealer_val ≤ 6 then "stand" else "hit"
    else if player_total = 12 then
      if 4 ≤ dealer_val ∧ dealer_val ≤ 6 then "stand" else "hit"
    else "hit"

/-- Policy that always stands (used as a concrete witness input). -/
def standPolicy : Policy := fun _ _ => "stand"

/-- Policy that always hits (used as a concrete witness input). -/
def hitPolicy : Policy := fun _ _ => "hit"

/-- A deck stream that always produces tens
(used as a concrete witness input). -/
def tenDeck : ℕ → Rank := fun _ => Rank.ten

/-- Default rules of the source: S17, blackjack pays 3:2, unit bet. -/
def defaultRules : Rules := ⟨false, 3 / 2, 1⟩

/-- Policy that hits on a two-card hand and answers `"double"` (an invalid
action) at every later decision (used as a concrete witness input for an
invalid action that is not the first decision of the round). -/
def hitThenDouble : Policy := fun hand _ =>
  if hand.length ≤ 2 then "hit" else "double"

/-- A deck stream that always produces twos
(used as a concrete witness input). -/
def twoDeck : ℕ → Rank := fun _ => Rank.two

set_option maxRecDepth 8000

theorem usable_ace_total_le (cards : Hand)
    (h : usable_ace cards = true) : total cards ≤ 21 := by
  rw [usable_ace, value_and_usable_ace_eq] at h
  rw [total, value_and_usable_ace_eq]
  split at h
  · next hc => simp only [if_pos hc]; omega
  · simp at h

/-- C2: for a non-empty hand, `value_and_usable_ace` returns the base sum
(A=1, 2..10 face, J/Q/K=10) plus 10 exactly once iff an Ace is present and
the promoted sum stays ≤ 21; `usable_ace` reports exactly that promotion;
the total never exceeds the every-Ace-as-11 value and never reflects more
than one promotion. -/
theorem C2_value_and_usable_ace (cards : Hand) (_hne : cards ≠ []) :
    (value_and_usable_ace cards).1
        = baseSum cards +
          (if 0 < aceCount cards ∧ baseSum cards + 10 ≤ 21 then 10 else 0) ∧
    ((value_and_usable_ace cards).2 = true ↔
        0 < aceCount cards ∧ baseSum cards + 10 ≤ 21) ∧
    ((value_and_usable_ace cards).1
        = baseSum cards + 10 ↔ (value_and_usable_ace cards).2 = true) ∧
    (value_and_usable_ace cards).1 ≤ baseSum cards + 10 * aceCount cards ∧
    (value_and_usable_ace cards).1 ≤ baseSum cards + 10 := by
  rw [value_and_usable_ace_eq]
  by_cases hc : 0 < aceCount cards ∧ baseSum cards + 10 ≤ 21
  · obtain ⟨hc1, hc2⟩ := hc
    simp only [if_pos (And.intro hc1 hc2)]
    refine ⟨by simp, by simp [hc1, hc2], by simp, ?_, by simp⟩
    show baseSum cards + 10 ≤ baseSum cards + 10 * aceCount cards
    omega
  · simp only [if_neg hc]
    refine ⟨by simp, ?_, ?_, ?_, by simp⟩
    · constructor
      · intro h
        simp at h
      · intro h
        exact absurd h hc
    · constructor
      · intro h
        have h' : baseSum cards = baseSum cards + 10 := h
        exact absurd h' (by omega)
      · intro h
        simp at h
    · show baseSum cards ≤ baseSum cards + 10 * aceCount cards
      omega

/-- C2 witness: concrete evaluation on the hand `[A, K]`. -/
theorem C2_witness :
    ([Rank.A, Rank.K] : Hand) ≠ [] ∧
    (value_and_usable_ace [Rank.A, Rank.K]).1 = 21 ∧
    (value_and_usable_ace [Rank.A, Rank.K]).2 = true ∧
    (value_and_usable_ace [Rank.A, Rank.K]).1
      ≤ baseSum [Rank.A, Rank.K] + 10 * aceCount [Rank.A, Rank.K] := by
  refine ⟨by decide, by decide, by decide, ?_⟩
  exact (C2_value_and_usable_ace [Rank.A, Rank.K] (by decide)).2.2.2.1

/-- C3: the dealer hits exactly below 17, or at a soft 17 when the rules
set `dealer_hits_soft_17`; above 17 (and at hard 17, or soft 17 under S17)
the dealer stands.  The closed form covers every particular case of the
claim (16 always hits, 18 always stands, the S17/H17 toggle at soft 17). -/
theorem C3_dealer_should_hit (rules : Rules) (hand : Hand) :
    dealer_should_hit rules hand =
      (decide (total hand < 17) ||
        (decide (total hand = 17) && usable_ace hand
          && rules.dealer_hits_soft_17)) := by
  rw [dealer_should_hit, total, usable_ace]
  rcases hvu : value_and_usable_ace hand with ⟨t, u⟩
  by_cases h1 : t < 17
  · simp [h1]
  · by_cases h2 : 17 < t
    · simp [h1, h2, show t ≠ 17 by omega]
    · have ht : t = 17 := by omega
      subst ht
      simp only [h1, h2, if_false, decide_eq_true_eq]
      cases u <;> cases hr : rules.dealer_hits_soft_17 <;> simp [hr]

/-- C8: `is_blackjack` holds exactly on two-card hands totalling 21, and is
therefore false for every hand of three or more cards. -/
theorem C8_is_blackjack (cards : Hand) :
    (is_blackjack cards = true ↔ cards.length = 2 ∧ total cards = 21) ∧
    (3 ≤ cards.length → is_blackjack cards = false) := by
  constructor
  · simp [is_blackjack]
  · intro h3
    simp only [is_blackjack, Bool.and_eq_false_iff]
    left
    simp
    omega

/-- C8 witness: the three-card 21 `[7,7,7]` is not a blackjack. -/
theorem C8_witness :
    3 ≤ ([Rank.seven, Rank.seven, Rank.seven] : Hand).length ∧
    total [Rank.seven, Rank.seven, Rank.seven] = 21 ∧
    is_blackjack [Rank.seven, Rank.seven, Rank.seven] = false := by
  refine ⟨by decide, by decide, ?_⟩
  exact (C8_is_blackjack [Rank.seven, Rank.seven, Rank.seven]).2 (by decide)

/-- C7: `simulate` is a pure function of the seeded generator stream, the
policy's decision function, the number of games and the rules: two calls
with identical inputs (identically-deciding policies, equal seeds) return
identical `Summary` values in every field. -/
theorem C7_determinism (gen : ℤ → ℕ → Rank) (p₁ p₂ : Policy) (n : ℤ)
    (s₁ s₂ : ℤ) (rules : Rules)
    (hp : ∀ h u, p₁ h u = p₂ h u) (hs : s₁ = s₂) :
    simulateSeeded gen p₁ n s₁ rules = simulateSeeded gen p₂ n s₂ rules := by
  have hpe : p₁ = p₂ := funext fun h => funext fun u => hp h u
  rw [hpe, hs]

/-- C7 witness: the determinism theorem applied to a concrete generator,
policy, seed and rule set. -/
theorem C7_witness :
    simulateSeeded (fun _ => tenDeck) standPolicy 5 42 defaultRules
      = simulateSeeded (fun _ => tenDeck) standPolicy 5 42 defaultRules :=
  C7_determinism (fun _ => tenDeck) standPolicy standPolicy 5 42 42
    defaultRules (fun _ _ => rfl) rfl

/-- C9: `BasicStrategyPolicy.decide` implements exactly the specified
table, with the dealer value 11 for an Ace upcard and the base value
otherwise: totals ≥ 21 stand; soft hands stand from 19, at 18 hit exactly
against dealer 9/10/11, and hit at ≤ 17; hard hands stand from 17, at
13–16 stand exactly against dealer 2–6, at 12 stand exactly against
dealer 4–6, and hit at ≤ 11. -/
theorem C9_basic_strategy (player : Hand) (up : Rank) :
    (21 ≤ total player → basicStrategyDecide player up = "stand") ∧
    (usable_ace player = true →
      (19 ≤ total player → basicStrategyDecide player up = "stand") ∧
      (total player = 18 → basicStrategyDecide player up =
        (if (if up = Rank.A then 11 else card_value up) = 9 ∨
            (if up = Rank.A then 11 else card_value up) = 10 ∨
            (if up = Rank.A then 11 else card_value up) = 11
         then "hit" else "stand")) ∧
      (total player ≤ 17 → basicStrategyDecide player up = "hit")) ∧
    (usable_ace player = false →
      (17 ≤ total player → basicStrategyDecide player up = "stand") ∧
      (13 ≤ total player → total player ≤ 16 → basicStrategyDecide player up =
        (if 2 ≤ (if up = Rank.A then 11 else card_value up) ∧
            (if up = Rank.A then 11 else card_value up) ≤ 6
         then "stand" else "hit")) ∧
      (total player = 12 → basicStrategyDecide player up =
        (if 4 ≤ (if up = Rank.A then 11 else card_value up) ∧
            (if up = Rank.A then 11 else card_value up) ≤ 6
         then "stand" else "hit")) ∧
      (total player ≤ 11 → basicStrategyDecide player up = "hit")) := by
  refine ⟨?_, ?_, ?_⟩
  · intro h
    simp [basicStrategyDecide, h]
  · intro hu
    refine ⟨?_, ?_, ?_⟩
    · intro h
      by_cases h21 : 21 ≤ total player <;>
        simp [basicStrategyDecide, hu, h21, h]
    · intro h
      simp [basicStrategyDecide, hu, h]
    · intro h
      simp [basicStrategyDecide, hu,
        show ¬ 21 ≤ total player by omega,
        show ¬ 19 ≤ total player by omega,
        show total player ≠ 18 by omega]
  · intro hu
    refine ⟨?_, ?_, ?_, ?_⟩
    · intro h
      by_cases h21 : 21 ≤ total player <;>
        simp [basicStrategyDecide, hu, h21, h]
    · intro h13 h16
      simp [basicStrategyDecide, hu,
        show ¬ 21 ≤ total player by omega,
        show ¬ 17 ≤ total player by omega, h13, h16]
    · intro h
      simp [basicStrategyDecide, hu, h]
    · intro h
      simp [basicStrategyDecide, hu,
        show ¬ 21 ≤ total player by omega,
        show ¬ 17 ≤ total player by omega,
        show ¬ 13 ≤ total player by omega,
        show total player ≠ 12 by omega]

/-- C9 witness: hard 16 versus a King upcard is a hit. -/
theorem C9_witness :
    usable_ace [Rank.ten, Rank.six] = false ∧
    13 ≤ total [Rank.ten, Rank.six] ∧ total [Rank.ten, Rank.six] ≤ 16 ∧
    basicStrategyDecide [Rank.ten, Rank.six] Rank.K = "hit" := by
  refine ⟨by decide, by decide, by decide, ?_⟩
  have h := ((C9_basic_strategy [Rank.ten, Rank.six] Rank.K).2.2
    (by decide)).2.1 (by decide) (by decide)
  rw [h]
  simp [card_value]

theorem playerTurn_busted (policy : Policy) (up : Rank) (deck : ℕ → Rank)
    (hand : Hand) (i : ℕ) (p' : Hand) (j : ℕ)
    (h : playerTurn policy up deck hand i = .ok (.busted p', j)) :
    is_bust p' = true := by
  induction hand, i using playerTurn.induct policy up deck with
  | case1 hand i hb =>
      rw [playerTurn] at h
      simp [hb] at h
      exact h.1 ▸ hb
  | case2 hand i hb a hav =>
      rw [playerTurn] at h
      simp [hb, hav] at h
  | case3 hand i hb a hav hst =>
      rw [playerTurn] at h
      simp [hb, hav, show policy hand up = "stand" from hst] at h
  | case4 hand i hb a hav hst ih =>
      rw [playerTurn] at h
      simp only [dif_neg hb, if_neg hav,
        if_neg (show ¬ policy hand up = "stand" from hst)] at h
      exact ih h

theorem card_value_le_ten (c : Rank) : card_value c ≤ 10 := by
  cases c <;> simp [card_value]

theorem total_two_card_le (c1 c2 : Rank) : total [c1, c2] ≤ 21 := by
  have h1 := card_value_le_ten c1
  have h2 := card_value_le_ten c2
  have hb : baseSum [c1, c2] ≤ 20 := by
    simp [baseSum]
    omega
  rw [total, value_and_usable_ace_eq]
  split
  · next hc =>
      show baseSum [c1, c2] + 10 ≤ 21
      exact hc.2
  · show baseSum [c1, c2] ≤ 21
    omega

/-- C10: when the player's hand busts during the player turn,
`play_round` settles immediately as a loss of the bet; the dealer hand is
still the initial two cards, the stream cursor is exactly where the
player's busting hit left it (no further draws), and `dealer_bust` is
reported `false`. -/
theorem C10_player_bust (rules : Rules) (policy : Policy) (deck : ℕ → Rank)
    (i : ℕ) (p' : Hand) (j : ℕ)
    (hpb : is_blackjack [deck i, deck (i + 1)] = false)
    (hdb : is_blackjack [deck (i + 2), deck (i + 3)] = false)
    (h : playerTurn policy (deck (i + 2)) deck [deck i, deck (i + 1)] (i + 4)
          = .ok (.busted p', j)) :
    is_bust p' = true ∧
    play_round rules policy deck i =
      .ok (⟨"loss", -rules.bet, total p', total [deck (i + 2), deck (i + 3)],
        false, false, true, false⟩, j) := by
  refine ⟨playerTurn_busted _ _ _ _ _ _ _ h, ?_⟩
  rw [play_round]
  simp only [hpb, hdb, Bool.or_false, Bool.false_eq_true, if_false, h]
  norm_num

/-- C10 witness: with an always-hit policy on an all-tens stream the player
busts at 30 and the round settles loss with the dealer hand untouched. -/
theorem C10_witness :
    is_bust [Rank.ten, Rank.ten, Rank.ten] = true ∧
    play_round defaultRules hitPolicy tenDeck 0 =
      .ok (⟨"loss", -defaultRules.bet, total [Rank.ten, Rank.ten, Rank.ten],
        total [tenDeck 2, tenDeck 3], false, false, true, false⟩, 5) := by
  apply C10_player_bust defaultRules hitPolicy tenDeck 0
    [Rank.ten, Rank.ten, Rank.ten] 5 (by decide) (by decide)
  simp [playerTurn, hitPolicy, tenDeck, is_bust, total, value_and_usable_ace,
    card_value]

theorem playerTurn_first_invalid (policy : Policy) (up : Rank)
    (deck : ℕ → Rank) (hand : Hand) (i : ℕ) (hb : is_bust hand = false)
    (h1 : policy hand up ≠ "hit") (h2 : policy hand up ≠ "stand") :
    playerTurn policy up deck hand i = .error (policy hand up) := by
  rw [playerTurn]
  simp [hb, h1, h2]

/-- C6: a policy answer other than `"hit"`/`"stand"` at any decision point
of the player turn makes the player-turn loop fail with that action as the
error (no default action is substituted); an erroring player turn aborts
`play_round` with the same error, an erroring round aborts the round loop
at whatever position (cursor and accumulator) it occurs, and the error
surfaces unchanged to the caller of `simulate` — the round is not
retried. -/
theorem C6_invalid_action (rules : Rules) (policy : Policy) (a : String)
    (hh : a ≠ "hit") (hs : a ≠ "stand") :
    (∀ (up : Rank) (deck : ℕ → Rank) (hand : Hand) (i : ℕ),
      is_bust hand = false → policy hand up = a →
      playerTurn policy up deck hand i = .error a) ∧
    (∀ (deck : ℕ → Rank) (i : ℕ) (e : String),
      is_blackjack [deck i, deck (i + 1)] = false →
      is_blackjack [deck (i + 2), deck (i + 3)] = false →
      playerTurn policy (deck (i + 2)) deck [deck i, deck (i + 1)] (i + 4)
        = .error e →
      play_round rules policy deck i = .error e) ∧
    (∀ (deck : ℕ → Rank) (n i : ℕ) (acc : ℕ × ℕ × ℕ × ℚ) (e : String),
      1 ≤ n → play_round rules policy deck i = .error e →
      runRounds rules policy deck n i acc = .error e) ∧
    (∀ (deck : ℕ → Rank) (n : ℤ) (e : String),
      runRounds rules policy deck n.toNat 0 (0, 0, 0, 0) = .error e →
      simulate policy n deck rules = .error e) := by
  refine ⟨?_, ?_, ?_, ?_⟩
  · intro up deck hand i hb hpa
    have hpt := playerTurn_first_invalid policy up deck hand i hb
      (hpa ▸ hh) (hpa ▸ hs)
    rw [hpt, hpa]
  · intro deck i e hpb hdb hpt
    rw [play_round]
    simp only [hpb, hdb, Bool.or_false, Bool.false_eq_true, if_false, hpt]
  · intro deck n i acc e hn hpr
    obtain ⟨m, hm⟩ : ∃ m, n = m + 1 := ⟨n - 1, by omega⟩
    obtain ⟨w, l, p, pt⟩ := acc
    subst hm
    rw [runRounds, hpr]
  · intro deck n e hrr
    rw [simulate, hrr]

/-- C6 witness: a policy that hits its two-card hand and answers
`"double"` at every later decision — the invalid action at the second
decision of the round aborts the round and the one-game simulation with
error `"double"`. -/
theorem C6_witness :
    hitThenDouble [Rank.two, Rank.two, Rank.two] Rank.two = "double" ∧
    play_round defaultRules hitThenDouble twoDeck 0 = .error "double" ∧
    simulate hitThenDouble 1 twoDeck defaultRules = .error "double" := by
  have hthm := C6_invalid_action defaultRules hitThenDouble "double"
    (by decide) (by decide)
  have h1 : playerTurn hitThenDouble Rank.two twoDeck
      [Rank.two, Rank.two, Rank.two] 5 = .error "double" :=
    hthm.1 Rank.two twoDeck [Rank.two, Rank.two, Rank.two] 5
      (by decide) (by decide)
  have h0 : playerTurn hitThenDouble Rank.two twoDeck
      [Rank.two, Rank.two] 4 = .error "double" := by
    rw [playerTurn]
    simp only [hitThenDouble, twoDeck, is_bust, total, value_and_usable_ace,
      card_value]
    norm_num
    exact h1
  have h2 : play_round defaultRules hitThenDouble twoDeck 0 =
      .error "double" :=
    hthm.2.1 twoDeck 0 "double" (by decide) (by decide) h0
  have h3 : runRounds defaultRules hitThenDouble twoDeck 1 0 (0, 0, 0, 0) =
      .error "double" :=
    hthm.2.2.1 twoDeck 1 0 (0, 0, 0, 0) "double" (by norm_num) h2
  have h4 : simulate hitThenDouble 1 twoDeck defaultRules =
      .error "double" :=
    hthm.2.2.2 twoDeck 1 "double" h3
  exact ⟨rfl, h2, h4⟩

theorem runRounds_counts (rules : Rules) (policy : Policy) (deck : ℕ → Rank) :
    ∀ (n i : ℕ) (w l p : ℕ) (pt : ℚ) (w' l' p' : ℕ) (pt' : ℚ) (j : ℕ),
    runRounds rules policy deck n i (w, l, p, pt) = .ok ((w', l', p', pt'), j) →
    w' + l' + p' = w + l + p + n := by
  intro n
  induction n with
  | zero =>
      intro i w l p pt w' l' p' pt' j h
      simp only [runRounds, Except.ok.injEq, Prod.mk.injEq] at h
      obtain ⟨⟨h1, h2, h3, h4⟩, h5⟩ := h
      omega
  | succ n ih =>
      intro i w l p pt w' l' p' pt' j h
      rw [runRounds] at h
      cases hpr : play_round rules policy deck i with
      | error e => rw [hpr] at h; simp at h
      | ok rj =>
          obtain ⟨res, k⟩ := rj
          rw [hpr] at h
          simp only at h
          split_ifs at h with h1 h2
          · have := ih k (w + 1) l p _ w' l' p' pt' j h
            omega
          · have := ih k w (l + 1) p _ w' l' p' pt' j h
            omega
          · have := ih k w l (p + 1) _ w' l' p' pt' j h
            omega

/-- C4: every `Summary` that `simulate` returns for `n ≥ 1` has
`wins + losses + pushes = n = games`, and its rate and average fields are
exactly the corresponding count divided by `games`. -/
theorem C4_simulate_invariant (policy : Policy) (deck : ℕ → Rank)
    (rules : Rules) (n : ℤ) (s : Summary)
    (h : simulate policy n deck rules = .ok s) (hn : 1 ≤ n) :
    (s.wins : ℤ) + s.losses + s.pushes = n ∧ s.games = n ∧
    s.win_rate = (s.wins : ℚ) / (s.games : ℚ) ∧
    s.loss_rate = (s.losses : ℚ) / (s.games : ℚ) ∧
    s.push_rate = (s.pushes : ℚ) / (s.games : ℚ) ∧
    s.profit_avg = s.profit_total / (s.games : ℚ) := by
  rw [simulate] at h
  cases hrr : runRounds rules policy deck n.toNat 0 (0, 0, 0, 0) with
  | error e => rw [hrr] at h; simp at h
  | ok rj =>
      obtain ⟨⟨w, l, p, pt⟩, j⟩ := rj
      rw [hrr] at h
      simp only at h
      rw [if_neg (by omega : ¬ n = 0)] at h
      simp only [Except.ok.injEq] at h
      subst h
      have hc := runRounds_counts rules policy deck n.toNat 0 0 0 0 0
        w l p pt j hrr
      refine ⟨?_, rfl, rfl, rfl, rfl, rfl⟩
      simp only
      omega

/-- C4 witness: one all-tens round gives one push and the invariant holds
at `n = 1`. -/
theorem C4_witness :
    ∃ s, simulate standPolicy 1 tenDeck defaultRules = .ok s ∧
      (s.wins : ℤ) + s.losses + s.pushes = 1 ∧ s.games = 1 ∧
      s.push_rate = (s.pushes : ℚ) / (s.games : ℚ) := by
  have hs : simulate standPolicy 1 tenDeck defaultRules =
      .ok ⟨1, 0, 0, 1, 0, 0, 0, 0, 1⟩ := by
    simp [simulate, runRounds, play_round, playerTurn, dealerTurn, standPolicy,
      tenDeck, is_blackjack, is_bust, total, value_and_usable_ace,
      dealer_should_hit, defaultRules, card_value]
  have h := C4_simulate_invariant standPolicy tenDeck defaultRules 1 _ hs
    (by norm_num)
  exact ⟨_, hs, h.1, h.2.1, h.2.2.2.2.1⟩

theorem playerTurn_stand (up : Rank) (deck : ℕ → Rank) (hand : Hand)
    (i : ℕ) :
    playerTurn standPolicy up deck hand i =
      if is_bust hand then .ok (.busted hand, i) else .ok (.stood hand, i) := by
  rw [playerTurn]
  by_cases hb : is_bust hand
  · simp [hb]
  · simp [hb, standPolicy]

theorem play_round_stand_ok (rules : Rules) (deck : ℕ → Rank) (i : ℕ) :
    ∃ r, play_round rules standPolicy deck i = .ok r := by
  have hnb : is_bust [deck i, deck (i + 1)] = false := by
    have := total_two_card_le (deck i) (deck (i + 1))
    simp [is_bust]
    omega
  rw [play_round]
  split
  · split
    · exact ⟨_, rfl⟩
    · split
      · exact ⟨_, rfl⟩
      · exact ⟨_, rfl⟩
  · rw [playerTurn_stand]
    simp only [hnb, Bool.false_eq_true, if_false]
    split_ifs <;> exact ⟨_, rfl⟩

theorem runRounds_stand_ok (rules : Rules) (deck : ℕ → Rank) :
    ∀ (n i : ℕ) (acc : ℕ × ℕ × ℕ × ℚ),
    ∃ r, runRounds rules standPolicy deck n i acc = .ok r := by
  intro n
  induction n with
  | zero =>
      intro i acc
      obtain ⟨w, l, p, pt⟩ := acc
      rw [runRounds]
      exact ⟨_, rfl⟩
  | succ n ih =>
      intro i acc
      obtain ⟨w, l, p, pt⟩ := acc
      obtain ⟨⟨res, k⟩, hpr⟩ := play_round_stand_ok rules deck i
      rw [runRounds, hpr]
      simp only
      split_ifs
      · exact ih k _
      · exact ih k _
      · exact ih k _

/-- C5 counterexample: `simulate` accepts a negative bet without any
input-validation error — the call returns an ordinary `Summary`, refuting
the claim that invalid configurations are rejected before rounds run. -/
theorem C5_counterexample :
    simulate standPolicy 1 tenDeck ⟨false, 3 / 2, -1⟩ =
      .ok ⟨1, 0, 0, 1, 0, 0, 0, 0, 1⟩ := by
  simp [simulate, runRounds, play_round, playerTurn, dealerTurn, standPolicy,
    tenDeck, is_blackjack, is_bust, total, value_and_usable_ace,
    dealer_should_hit, card_value]

/-- C5 (amended): `simulate` performs no configuration validation.
Arbitrary rules (negative bet or payout included) are accepted and rounds
run normally; `nGames = 0` fails only with a division-by-zero error raised
after the empty loop; negative `nGames` runs zero rounds and returns a
`Summary` whose `games` field is the negative count. -/
theorem C5_no_validation :
    (∀ (policy : Policy) (deck : ℕ → Rank) (rules : Rules),
      simulate policy 0 deck rules = .error "ZeroDivisionError") ∧
    (∀ (deck : ℕ → Rank) (rules : Rules) (n : ℤ), 1 ≤ n →
      ∃ s, simulate standPolicy n deck rules = .ok s) ∧
    (∀ (deck : ℕ → Rank) (rules : Rules) (n : ℤ), n < 0 →
      ∃ s, simulate standPolicy n deck rules = .ok s ∧ s.games = n) := by
  refine ⟨?_, ?_, ?_⟩
  · intro policy deck rules
    simp [simulate, runRounds]
  · intro deck rules n hn
    obtain ⟨⟨⟨w, l, p, pt⟩, j⟩, hr⟩ :=
      runRounds_stand_ok rules deck n.toNat 0 (0, 0, 0, 0)
    rw [simulate, hr]
    simp only
    rw [if_neg (by omega : ¬ n = 0)]
    exact ⟨_, rfl⟩
  · intro deck rules n hneg
    have h0 : n.toNat = 0 := by omega
    rw [simulate, h0, runRounds]
    simp only
    rw [if_neg (by omega : ¬ n = 0)]
    exact ⟨_, rfl, rfl⟩

/-- C5 witness: the amended statement at concrete inputs — zero games
raise the division error, one game and minus-three games both return
summaries. -/
theorem C5_witness :
    simulate standPolicy 0 tenDeck defaultRules = .error "ZeroDivisionError" ∧
    (∃ s, simulate standPolicy 1 tenDeck defaultRules = .ok s) ∧
    (∃ s, simulate standPolicy (-3) tenDeck defaultRules = .ok s ∧
      s.games = -3) :=
  ⟨C5_no_validation.1 standPolicy tenDeck defaultRules,
   C5_no_validation.2.1 tenDeck defaultRules 1 (by norm_num),
   C5_no_validation.2.2 tenDeck defaultRules (-3) (by norm_num)⟩

/-- C1: every completed round has outcome win, loss or push, and its profit
follows the settlement table exactly: both naturals push 0, a player-only
natural wins `blackjackPayout * bet`, a dealer-only natural loses the bet
(each blackjack case consuming exactly the four initially dealt cards);
otherwise a busted player loses the bet, a standing player beats a busted
dealer for the bet, and surviving hands compare totals for `+bet` / `-bet`
/ `0`. -/
theorem C1_settlement (rules : Rules) (policy : Policy) (deck : ℕ → Rank)
    (i : ℕ) (res : GameResult) (j : ℕ)
    (h : play_round rules policy deck i = .ok (res, j)) :
    (res.outcome = "win" ∨ res.outcome = "loss" ∨ res.outcome = "push") ∧
    (is_blackjack [deck i, deck (i + 1)] = true →
      is_blackjack [deck (i + 2), deck (i + 3)] = true →
      res.outcome = "push" ∧ res.profit = 0 ∧ j = i + 4) ∧
    (is_blackjack [deck i, deck (i + 1)] = true →
      is_blackjack [deck (i + 2), deck (i + 3)] = false →
      res.outcome = "win" ∧
      res.profit = rules.blackjack_payout * rules.bet ∧ j = i + 4) ∧
    (is_blackjack [deck i, deck (i + 1)] = false →
      is_blackjack [deck (i + 2), deck (i + 3)] = true →
      res.outcome = "loss" ∧ res.profit = -rules.bet ∧ j = i + 4) ∧
    (is_blackjack [deck i, deck (i + 1)] = false →
      is_blackjack [deck (i + 2), deck (i + 3)] = false →
      (res.player_bust = true →
        res.outcome = "loss" ∧ res.profit = -rules.bet) ∧
      (res.player_bust = false → res.dealer_bust = true →
        res.outcome = "win" ∧ res.profit = rules.bet) ∧
      (res.player_bust = false → res.dealer_bust = false →
        (res.dealer_total < res.player_total →
          res.outcome = "win" ∧ res.profit = rules.bet) ∧
        (res.player_total < res.dealer_total →
          res.outcome = "loss" ∧ res.profit = -rules.bet) ∧
        (res.player_total = res.dealer_total →
          res.outcome = "push" ∧ res.profit = 0))) := by
  rw [play_round] at h
  by_cases hpb : is_blackjack [deck i, deck (i + 1)] <;>
    by_cases hdb : is_blackjack [deck (i + 2), deck (i + 3)]
  · simp only [hpb, hdb, Bool.or_self, if_true, Bool.and_self,
      Except.ok.injEq, Prod.mk.injEq] at h
    obtain ⟨hres, hj⟩ := h
    subst hres
    subst hj
    refine ⟨by simp, fun _ _ => ⟨rfl, rfl, rfl⟩, ?_, ?_, ?_⟩ <;>
      (intro h1 h2; simp_all)
  · simp only [hpb, hdb, Bool.true_or, Bool.and_false, Bool.false_eq_true,
      if_false, if_true, Bool.not_false, Bool.and_true, Bool.and_self,
      Except.ok.injEq, Prod.mk.injEq] at h
    obtain ⟨hres, hj⟩ := h
    subst hres
    subst hj
    refine ⟨by simp, ?_, fun _ _ => ⟨rfl, rfl, rfl⟩, ?_, ?_⟩ <;>
      (intro h1 h2; simp_all)
  · simp only [hpb, hdb, Bool.or_true, if_true, Bool.false_and,
      Bool.false_eq_true, if_false, Bool.not_true, Bool.and_false,
      Except.ok.injEq, Prod.mk.injEq] at h
    obtain ⟨hres, hj⟩ := h
    subst hres
    subst hj
    refine ⟨by simp, ?_, ?_, ?_, ?_⟩
    · intro h1 h2
      simp_all
    · intro h1 h2
      simp_all
    · intro h1 h2
      refine ⟨rfl, ?_, rfl⟩
      simp only
      ring
    · intro h1 h2
      simp_all
  · simp only [hpb, hdb, Bool.or_self, Bool.false_eq_true, if_false] at h
    cases hpt : playerTurn policy (deck (i + 2)) deck
        [deck i, deck (i + 1)] (i + 4) with
    | error e =>
        rw [hpt] at h
        simp at h
    | ok rk =>
        obtain ⟨pe, k⟩ := rk
        rw [hpt] at h
        cases pe with
        | busted p' =>
            simp only [Except.ok.injEq, Prod.mk.injEq] at h
            obtain ⟨hres, hj⟩ := h
            subst hres
            subst hj
            refine ⟨by simp, by simp_all, by simp_all, by simp_all, ?_⟩
            intro h1 h2
            refine ⟨?_, by simp, by simp⟩
            intro hb3
            refine ⟨rfl, ?_⟩
            simp only
            ring
        | stood p' =>
            simp only at h
            split_ifs at h with hb1 hb2 hc1 hc2 <;>
              (simp only [Except.ok.injEq, Prod.mk.injEq] at h;
                obtain ⟨hres, hj⟩ := h; subst hres; subst hj)
            · refine ⟨by simp, by simp_all, by simp_all, by simp_all, ?_⟩
              intro h1 h2
              refine ⟨?_, by simp, by simp⟩
              intro hb3
              refine ⟨rfl, ?_⟩
              simp only
              ring
            · refine ⟨by simp, by simp_all, by simp_all, by simp_all, ?_⟩
              intro h1 h2
              refine ⟨by simp, ?_, by simp⟩
              intro hb3 hb4
              refine ⟨rfl, ?_⟩
              simp only
              ring
            · refine ⟨by simp, by simp_all, by simp_all, by simp_all, ?_⟩
              intro h1 h2
              refine ⟨by simp, by simp, ?_⟩
              intro hb3 hb4
              refine ⟨fun _ => ⟨rfl, by simp only; ring⟩, ?_, ?_⟩
              · intro hlt
                simp only at hlt
                omega
              · intro heq
                simp only at heq
                omega
            · refine ⟨by simp, by simp_all, by simp_all, by simp_all, ?_⟩
              intro h1 h2
              refine ⟨by simp, by simp, ?_⟩
              intro hb3 hb4
              refine ⟨?_, fun _ => ⟨rfl, by simp only; ring⟩, ?_⟩
              · intro hgt
                simp only at hgt
                omega
              · intro heq
                simp only at heq
                omega
            · refine ⟨by simp, by simp_all, by simp_all, by simp_all, ?_⟩
              intro h1 h2
              refine ⟨by simp, by simp, ?_⟩
              intro hb3 hb4
              refine ⟨?_, ?_, fun _ => ⟨rfl, rfl⟩⟩
              · intro hgt
                simp only at hgt
                omega
              · intro hlt
                simp only at hlt
                omega

/-- C1 witness: a concrete all-tens round settles as a push and the
settlement theorem applies to it. -/
theorem C1_witness :
    ∃ res j, play_round defaultRules standPolicy tenDeck 0 = .ok (res, j) ∧
      (res.outcome = "win" ∨ res.outcome = "loss" ∨ res.outcome = "push") ∧
      (res.player_total = res.dealer_total →
        res.outcome = "push" ∧ res.profit = 0) := by
  have hpr : play_round defaultRules standPolicy tenDeck 0 =
      .ok (⟨"push", 0, 20, 20, false, false, false, false⟩, 4) := by
    simp [play_round, playerTurn, dealerTurn, standPolicy, tenDeck,
      is_blackjack, is_bust, total, value_and_usable_ace, dealer_should_hit,
      defaultRules, card_value]
  have h := C1_settlement defaultRules standPolicy tenDeck 0 _ _ hpr
  exact ⟨_, _, hpr, h.1,
    (((h.2.2.2.2 (by decide) (by decide)).2.2 (by decide) (by decide))).2.2⟩
